import Mathlib

/-!
Verification of the fuzzy internship-recommendation scoring engine
(`src/fuzzy_model.py`) and the deterministic baseline scorer
(`src/evaluation_metrics.py`).

All numeric computation is embedded over `ℚ` (exact rational arithmetic).
The module-level configuration — universes built with `np.arange`, the
triangular membership functions (`fuzz.trimf`), the nine rules and the
facade `get_fuzzy_score` — is translated from `src/fuzzy_model.py`.
The Mamdani inference procedure itself (firing strengths, clipping,
aggregation, centroid defuzzification) is implemented by the external
`skfuzzy.control` dependency, whose sources are not part of this
repository; those parts are modelled from the specification (section 4.3)
and are marked `Modelled from the spec:` below.
-/

set_option maxRecDepth 10000

attribute [local semireducible] Rat.ofScientific Rat.inv Rat.mul Rat.add Rat.sub

namespace InternshipFuzzy

/-- `np.arange start stop step`, modelled with exact rational arithmetic:
the sample points `start + i * step` for `0 ≤ i < ⌈(stop - start) / step⌉`.
For the four universes of `src/fuzzy_model.py` the element count under
exact arithmetic coincides with the one numpy produces in floating point
(21, 101, 11 and 101 points). -/
def arange (start stop step : ℚ) : List ℚ :=
  (List.range (⌈(stop - start) / step⌉).toNat).map (fun i => start + (i : ℚ) * step)

/-- `cgpa = ctrl.Antecedent(np.arange(2.0, 4.1, 0.1), 'cgpa')` — the universe. -/
def cgpa_universe : List ℚ := arange 2 4.1 0.1

/-- `skill_match = ctrl.Antecedent(np.arange(0, 101, 1), 'skill_match')` — the universe. -/
def skill_match_universe : List ℚ := arange 0 101 1

/-- `sector_match = ctrl.Antecedent(np.arange(0, 1.1, 0.1), 'sector_match')` — the universe. -/
def sector_match_universe : List ℚ := arange 0 1.1 0.1

/-- `recommendation = ctrl.Consequent(np.arange(0, 101, 1), 'recommendation')` — the universe. -/
def recommendation_universe : List ℚ := arange 0 101 1

/-- `fuzz.trimf` evaluated at a crisp point: the triangular membership
function with breakpoints `a ≤ b ≤ c`, rising linearly from 0 at `a` to 1
at `b` and falling linearly back to 0 at `c` (`a = b` gives a left
shoulder, `b = c` a right shoulder).  Every breakpoint used in
`src/fuzzy_model.py` lies on its universe's sampling grid, so linear
interpolation of the sampled curve at a crisp value agrees with direct
evaluation. -/
def trimf (a b c x : ℚ) : ℚ :=
  if x < a then 0
  else if x < b then (x - a) / (b - a)
  else if x = b then 1
  else if x < c then (c - x) / (c - b)
  else 0

/-- `cgpa['low'] = fuzz.trimf(cgpa.universe, [2.0, 2.0, 3.2])` -/
def cgpa_low (x : ℚ) : ℚ := trimf 2 2 3.2 x

/-- `cgpa['medium'] = fuzz.trimf(cgpa.universe, [2.9, 3.4, 3.8])` -/
def cgpa_medium (x : ℚ) : ℚ := trimf 2.9 3.4 3.8 x

/-- `cgpa['high'] = fuzz.trimf(cgpa.universe, [3.6, 4.0, 4.0])` -/
def cgpa_high (x : ℚ) : ℚ := trimf 3.6 4 4 x

/-- `skill_match['poor'] = fuzz.trimf(skill_match.universe, [0, 0, 60])` -/
def skill_match_poor (x : ℚ) : ℚ := trimf 0 0 60 x

/-- `skill_match['fair'] = fuzz.trimf(skill_match.universe, [45, 70, 90])` -/
def skill_match_fair (x : ℚ) : ℚ := trimf 45 70 90 x

/-- `skill_match['excellent'] = fuzz.trimf(skill_match.universe, [80, 100, 100])` -/
def skill_match_excellent (x : ℚ) : ℚ := trimf 80 100 100 x

/-- `sector_match['no'] = fuzz.trimf(sector_match.universe, [0, 0, 0.6])` -/
def sector_match_no (x : ℚ) : ℚ := trimf 0 0 0.6 x

/-- `sector_match['yes'] = fuzz.trimf(sector_match.universe, [0.4, 1, 1])` -/
def sector_match_yes (x : ℚ) : ℚ := trimf 0.4 1 1 x

/-- `recommendation['weak'] = fuzz.trimf(recommendation.universe, [0, 10, 40])` -/
def recommendation_weak (x : ℚ) : ℚ := trimf 0 10 40 x

/-- `recommendation['moderate'] = fuzz.trimf(recommendation.universe, [30, 60, 80])` -/
def recommendation_moderate (x : ℚ) : ℚ := trimf 30 60 80 x

/-- `recommendation['strong'] = fuzz.trimf(recommendation.universe, [70, 100, 100])` -/
def recommendation_strong (x : ℚ) : ℚ := trimf 70 100 100 x

/-- The three crisp inputs of one scoring call. -/
structure Inputs where
  cgpa : ℚ
  skill_match : ℚ
  sector_match : ℚ
  deriving DecidableEq

/-- Antecedent expression tree of a rule: membership terms combined with
AND / OR (the `&` / `|` operators on `skfuzzy` terms). -/
inductive AExpr where
  | mem : (Inputs → ℚ) → AExpr
  | and : AExpr → AExpr → AExpr
  | or : AExpr → AExpr → AExpr

/-- Modelled from the spec: rule antecedent evaluation — AND is min, OR is
max over the referenced membership degrees (spec section 4.3 step 3; the
evaluation itself happens inside `skfuzzy.control`, not in `src/`). -/
def AExpr.eval : AExpr → Inputs → ℚ
  | AExpr.mem f, i => f i
  | AExpr.and p q, i => min (p.eval i) (q.eval i)
  | AExpr.or p q, i => max (p.eval i) (q.eval i)

/-- The three fuzzy sets of the output variable `recommendation`. -/
inductive OutTerm where
  | weak
  | moderate
  | strong
  deriving DecidableEq

/-- Membership curve of an output fuzzy set. -/
def OutTerm.mf : OutTerm → ℚ → ℚ
  | OutTerm.weak => recommendation_weak
  | OutTerm.moderate => recommendation_moderate
  | OutTerm.strong => recommendation_strong

/-- One fuzzy rule: antecedent expression and consequent output set. -/
structure Rule where
  antecedent : AExpr
  consequent : OutTerm

/-- `rule1 = ctrl.Rule(cgpa['high'] & skill_match['excellent'] & sector_match['yes'], recommendation['strong'])` -/
def rule1 : Rule :=
  ⟨AExpr.and (AExpr.and (AExpr.mem fun i => cgpa_high i.cgpa)
      (AExpr.mem fun i => skill_match_excellent i.skill_match))
      (AExpr.mem fun i => sector_match_yes i.sector_match),
    OutTerm.strong⟩

/-- `rule2 = ctrl.Rule(cgpa['medium'] & skill_match['excellent'] & sector_match['yes'], recommendation['strong'])` -/
def rule2 : Rule :=
  ⟨AExpr.and (AExpr.and (AExpr.mem fun i => cgpa_medium i.cgpa)
      (AExpr.mem fun i => skill_match_excellent i.skill_match))
      (AExpr.mem fun i => sector_match_yes i.sector_match),
    OutTerm.strong⟩

/-- `rule3 = ctrl.Rule(cgpa['low'] & skill_match['excellent'] & sector_match['yes'], recommendation['moderate'])` -/
def rule3 : Rule :=
  ⟨AExpr.and (AExpr.and (AExpr.mem fun i => cgpa_low i.cgpa)
      (AExpr.mem fun i => skill_match_excellent i.skill_match))
      (AExpr.mem fun i => sector_match_yes i.sector_match),
    OutTerm.moderate⟩

/-- `rule4 = ctrl.Rule(cgpa['high'] & skill_match['fair'] & sector_match['yes'], recommendation['moderate'])` -/
def rule4 : Rule :=
  ⟨AExpr.and (AExpr.and (AExpr.mem fun i => cgpa_high i.cgpa)
      (AExpr.mem fun i => skill_match_fair i.skill_match))
      (AExpr.mem fun i => sector_match_yes i.sector_match),
    OutTerm.moderate⟩

/-- `rule5 = ctrl.Rule(cgpa['high'] & skill_match['excellent'] & sector_match['no'], recommendation['moderate'])` -/
def rule5 : Rule :=
  ⟨AExpr.and (AExpr.and (AExpr.mem fun i => cgpa_high i.cgpa)
      (AExpr.mem fun i => skill_match_excellent i.skill_match))
      (AExpr.mem fun i => sector_match_no i.sector_match),
    OutTerm.moderate⟩

/-- `rule6 = ctrl.Rule(cgpa['low'] | skill_match['poor'], recommendation['weak'])` -/
def rule6 : Rule :=
  ⟨AExpr.or (AExpr.mem fun i => cgpa_low i.cgpa)
      (AExpr.mem fun i => skill_match_poor i.skill_match),
    OutTerm.weak⟩

/-- `rule7 = ctrl.Rule(sector_match['no'] & skill_match['fair'], recommendation['weak'])` -/
def rule7 : Rule :=
  ⟨AExpr.and (AExpr.mem fun i => sector_match_no i.sector_match)
      (AExpr.mem fun i => skill_match_fair i.skill_match),
    OutTerm.weak⟩

/-- `rule8 = ctrl.Rule(cgpa['medium'] & skill_match['fair'] & sector_match['no'], recommendation['weak'])` -/
def rule8 : Rule :=
  ⟨AExpr.and (AExpr.and (AExpr.mem fun i => cgpa_medium i.cgpa)
      (AExpr.mem fun i => skill_match_fair i.skill_match))
      (AExpr.mem fun i => sector_match_no i.sector_match),
    OutTerm.weak⟩

/-- `rule9 = ctrl.Rule(cgpa['high'] & sector_match['yes'], recommendation['moderate'])` -/
def rule9 : Rule :=
  ⟨AExpr.and (AExpr.mem fun i => cgpa_high i.cgpa)
      (AExpr.mem fun i => sector_match_yes i.sector_match),
    OutTerm.moderate⟩

/-- `recommendation_ctrl = ctrl.ControlSystem([rule1, ..., rule9])` — the rule base. -/
def rules : List Rule :=
  [rule1, rule2, rule3, rule4, rule5, rule6, rule7, rule8, rule9]

/-- Firing strength of one rule: the evaluated antecedent degree. -/
def firingStrength (r : Rule) (i : Inputs) : ℚ := r.antecedent.eval i

/-- The firing strengths of the whole rule base, each paired with its
rule's consequent output set. -/
def ruleStrengths (i : Inputs) : List (ℚ × OutTerm) :=
  rules.map (fun r => (firingStrength r i, r.consequent))

/-- Modelled from the spec: the maximum firing strength over all rules
whose consequent references the output set `t` (spec section 4.3 step 4;
implemented inside `skfuzzy.control`, not in `src/`). -/
def setStrength (t : OutTerm) : List (ℚ × OutTerm) → ℚ
  | [] => 0
  | p :: st => if p.2 = t then max p.1 (setStrength t st) else setStrength t st

/-- Modelled from the spec: activated membership curve of one output set —
its own curve clipped (pointwise min) by the strongest rule invoking it. -/
def activation (t : OutTerm) (st : List (ℚ × OutTerm)) (x : ℚ) : ℚ :=
  min (t.mf x) (setStrength t st)

/-- Modelled from the spec: the aggregate output curve — the pointwise
maximum of the three activated output curves (spec section 4.3 step 4). -/
def aggregate (st : List (ℚ × OutTerm)) (x : ℚ) : ℚ :=
  max (activation OutTerm.weak st x)
    (max (activation OutTerm.moderate st x) (activation OutTerm.strong st x))

/-- Rule-by-rule form of the aggregation: each rule clips its consequent
set's curve by its own firing strength and the clipped curves of all rules
are combined by pointwise maximum.  Proved below to agree with
`aggregate`. -/
def aggregateRules : List (ℚ × OutTerm) → ℚ → ℚ
  | [], _ => 0
  | p :: st, x => max (min (p.2.mf x) p.1) (aggregateRules st x)

/-- Modelled from the spec: centroid defuzzification over the sampled
universe, `Σ (x * μ x) / Σ (μ x)`; when the aggregate curve sums to zero
(the all-zero-membership case) defuzzification is undefined and the
engine signals it instead of producing a number (spec section 4.3
step 5). -/
def centroid (xs : List ℚ) (μ : ℚ → ℚ) : Option ℚ :=
  if (xs.map μ).sum = 0 then none
  else some ((xs.map (fun x => x * μ x)).sum / (xs.map μ).sum)

/-- Round half to even (Python's `round` on an exact value). -/
def roundHalfEven (q : ℚ) : ℤ :=
  if q - ⌊q⌋ < 1 / 2 then ⌊q⌋
  else if 1 / 2 < q - ⌊q⌋ then ⌊q⌋ + 1
  else if ⌊q⌋ % 2 = 0 then ⌊q⌋ else ⌊q⌋ + 1

/-- Python's `round(q, 2)`: round to 2 decimal places. -/
def round2 (q : ℚ) : ℚ := (roundHalfEven (q * 100) : ℚ) / 100

/-- Clamp a crisp value to `[lo, hi]`. -/
def clamp (lo hi x : ℚ) : ℚ := max lo (min hi x)

/-- Modelled from the spec: each crisp input is clamped against its
variable's universe bounds (spec section 4.3 step 1). -/
def clampedInputs (c s m : ℚ) : Inputs :=
  ⟨clamp 2 4 c, clamp 0 100 s, clamp 0 1 m⟩

/-- Modelled from the spec: the inference engine — clamp the inputs, fire
all nine rules, aggregate the activated output curves and defuzzify by
centroid over the sampled output universe; `none` signals the
non-defuzzifiable all-zero case. -/
def infer (c s m : ℚ) : Option ℚ :=
  centroid recommendation_universe (aggregate (ruleStrengths (clampedInputs c s m)))

/-- `get_fuzzy_score` (src/fuzzy_model.py lines 81-110): delegate to the
engine; round a defuzzified value to 2 decimal places; return the fixed
fallback 5.0 when the engine produced no `recommendation` output. -/
def get_fuzzy_score (c s m : ℚ) : ℚ :=
  match infer c s m with
  | some v => round2 v
  | none => 5

/-- State of the module-level `ControlSystemSimulation` object
(`recommendation_sim`, src/fuzzy_model.py line 77): the last-set crisp
inputs and the last computed output mapping.  The object is created once
at module import and reused by every `get_fuzzy_score` call. -/
structure Session where
  inputs : Option Inputs
  output : Option ℚ
  deriving DecidableEq

/-- The session as it stands right after module import: nothing computed. -/
def freshSession : Session := ⟨none, none⟩

/-- One `get_fuzzy_score` call against the module-level session, following
the source: write the clamped inputs into the session, compute (which
overwrites the session's output mapping from the current inputs alone),
read the output.  Returns the score together with the session as the
module keeps it for the next call. -/
def get_fuzzy_score_call (_sess : Session) (c s m : ℚ) : ℚ × Session :=
  let i := clampedInputs c s m
  let out := centroid recommendation_universe (aggregate (ruleStrengths i))
  (match out with
    | some v => round2 v
    | none => 5,
   ⟨some i, out⟩)

/-- `calculate_baseline_score` (src/evaluation_metrics.py lines 2-30). -/
def calculate_baseline_score (student_cgpa req_cgpa : ℚ)
    (pref_sector req_sector : String)
    (student_skill_sum req_skill_sum : ℚ) : ℚ :=
  let score : ℚ :=
    (if student_cgpa ≥ req_cgpa then (0.3 : ℚ) else 0)
    + (if pref_sector = req_sector then (0.3 : ℚ) else 0)
    + (if student_skill_sum > req_skill_sum then (0.4 : ℚ) else 0)
  round2 (min score 1)

/-! ### Basic facts about the membership functions -/

theorem trimf_nonneg (a b c x : ℚ) : 0 ≤ trimf a b c x := by
  unfold trimf
  split_ifs with h1 h2 h3 h4
  · exact le_refl 0
  · exact div_nonneg (by linarith [not_lt.mp h1]) (by linarith [not_lt.mp h1])
  · exact zero_le_one
  · have hb : b < x := lt_of_le_of_ne (not_lt.mp h2) (Ne.symm h3)
    exact div_nonneg (by linarith) (by linarith)
  · exact le_refl 0

theorem trimf_le_one (a b c x : ℚ) : trimf a b c x ≤ 1 := by
  unfold trimf
  split_ifs with h1 h2 h3 h4
  · exact zero_le_one
  · have ha : a ≤ x := not_lt.mp h1
    rw [div_le_one (by linarith)]
    linarith
  · exact le_refl 1
  · have hb : b < x := lt_of_le_of_ne (not_lt.mp h2) (Ne.symm h3)
    rw [div_le_one (by linarith)]
    linarith
  · exact zero_le_one

theorem mf_nonneg (t : OutTerm) (x : ℚ) : 0 ≤ t.mf x := by
  cases t <;>
    simp only [OutTerm.mf, recommendation_weak, recommendation_moderate,
      recommendation_strong] <;>
    exact trimf_nonneg _ _ _ _

theorem setStrength_nonneg (t : OutTerm) (st : List (ℚ × OutTerm)) :
    0 ≤ setStrength t st := by
  induction st with
  | nil => exact le_refl 0
  | cons p st ih =>
      unfold setStrength
      split_ifs
      · exact le_trans ih (le_max_right _ _)
      · exact ih

theorem aggregate_nonneg (st : List (ℚ × OutTerm)) (x : ℚ) :
    0 ≤ aggregate st x := by
  unfold aggregate activation
  exact le_trans (le_min (mf_nonneg _ _) (setStrength_nonneg _ _)) (le_max_left _ _)

/-- A list of nonnegative rationals sums to zero exactly when every
element is zero. -/
theorem sum_eq_zero_iff_of_nonneg {l : List ℚ} (h : ∀ x ∈ l, 0 ≤ x) :
    l.sum = 0 ↔ ∀ x ∈ l, x = 0 := by
  induction l with
  | nil => simp
  | cons a l ih =>
      have ha : 0 ≤ a := h a (List.mem_cons_self a l)
      have hl : ∀ x ∈ l, 0 ≤ x := fun x hx => h x (List.mem_cons_of_mem a hx)
      have hsum : 0 ≤ l.sum := List.sum_nonneg hl
      simp only [List.sum_cons, List.mem_cons]
      constructor
      · intro h0
        have ha0 : a = 0 := by linarith [(ih hl).mpr, hsum]
        have hl0 : l.sum = 0 := by linarith
        exact fun x hx => hx.elim (fun e => e ▸ ha0) fun hx => ((ih hl).mp hl0) x hx
      · intro hall
        have ha0 : a = 0 := hall a (Or.inl rfl)
        have hl0 : l.sum = 0 := (ih hl).mpr fun x hx => hall x (Or.inr hx)
        rw [ha0, hl0, add_zero]

/-- The output universe, in closed form: the 101 integer sample points. -/
theorem recommendation_universe_eq :
    recommendation_universe = (List.range 101).map (fun i : ℕ => (i : ℚ)) := by decide

theorem mem_recommendation_universe {x : ℚ} (hx : x ∈ recommendation_universe) :
    0 ≤ x ∧ x ≤ 100 := by
  rw [recommendation_universe_eq] at hx
  rcases List.mem_map.mp hx with ⟨i, hi, rfl⟩
  rw [List.mem_range] at hi
  have hi' : i ≤ 100 := by omega
  exact ⟨by exact_mod_cast Nat.zero_le i, by exact_mod_cast hi'⟩

/-! ### Centroid defuzzification -/

theorem centroid_eq_none_iff (xs : List ℚ) (μ : ℚ → ℚ) :
    centroid xs μ = none ↔ (xs.map μ).sum = 0 := by
  unfold centroid
  split_ifs with h <;> simp [h]

theorem centroid_eq_some {xs : List ℚ} {μ : ℚ → ℚ} {v : ℚ}
    (h : centroid xs μ = some v) :
    (xs.map μ).sum ≠ 0 ∧ v = (xs.map (fun x => x * μ x)).sum / (xs.map μ).sum := by
  unfold centroid at h
  split_ifs at h with h0
  exact ⟨h0, (Option.some_inj.mp h).symm⟩

/-- The centroid of a nonnegative curve over sample points lying in
`[lo, hi]` lies in `[lo, hi]`: it is a weighted average. -/
theorem centroid_bounds {xs : List ℚ} {μ : ℚ → ℚ} {lo hi v : ℚ}
    (hμ : ∀ x ∈ xs, 0 ≤ μ x) (hx : ∀ x ∈ xs, lo ≤ x ∧ x ≤ hi)
    (h : centroid xs μ = some v) : lo ≤ v ∧ v ≤ hi := by
  obtain ⟨hden, hv⟩ := centroid_eq_some h
  have hden_nonneg : 0 ≤ (xs.map μ).sum :=
    List.sum_nonneg (by
      intro y hy
      obtain ⟨x, hxmem, rfl⟩ := List.mem_map.mp hy
      exact hμ x hxmem)
  have hden_pos : 0 < (xs.map μ).sum := lt_of_le_of_ne hden_nonneg (Ne.symm hden)
  have hlow : lo * (xs.map μ).sum ≤ (xs.map (fun x => x * μ x)).sum := by
    rw [← List.sum_map_mul_left]
    exact List.sum_le_sum fun x hxmem =>
      mul_le_mul_of_nonneg_right (hx x hxmem).1 (hμ x hxmem)
  have hhigh : (xs.map (fun x => x * μ x)).sum ≤ hi * (xs.map μ).sum := by
    rw [← List.sum_map_mul_left]
    exact List.sum_le_sum fun x hxmem =>
      mul_le_mul_of_nonneg_right (hx x hxmem).2 (hμ x hxmem)
  constructor
  · rw [hv, le_div_iff₀ hden_pos]
    exact hlow
  · rw [hv, div_le_iff₀ hden_pos]
    exact hhigh

/-! ### Rounding -/

theorem floor_le_roundHalfEven (q : ℚ) : ⌊q⌋ ≤ roundHalfEven q := by
  unfold roundHalfEven
  split_ifs <;> omega

theorem roundHalfEven_le_ceil (q : ℚ) : roundHalfEven q ≤ ⌈q⌉ := by
  have hfc : ⌊q⌋ ≤ ⌈q⌉ := Int.floor_le_ceil q
  have hstep : (1:ℚ) / 2 ≤ q - ⌊q⌋ → ⌊q⌋ + 1 ≤ ⌈q⌉ := by
    intro hhalf
    have hlt : (⌊q⌋ : ℚ) < q := by linarith
    exact Int.add_one_le_iff.mpr (Int.lt_ceil.mpr hlt)
  unfold roundHalfEven
  split_ifs with h1 h2 h3
  · exact hfc
  · exact hstep (le_of_lt h2)
  · exact hfc
  · have heq : (1:ℚ) / 2 ≤ q - ⌊q⌋ := by
      by_contra hcon
      exact h1 (lt_of_not_le hcon)
    exact hstep heq

theorem round2_bounds {v : ℚ} (h0 : 0 ≤ v) (h1 : v ≤ 100) :
    0 ≤ round2 v ∧ round2 v ≤ 100 := by
  unfold round2
  constructor
  · have hfl : (0:ℤ) ≤ ⌊v * 100⌋ := Int.floor_nonneg.mpr (by positivity)
    have := floor_le_roundHalfEven (v * 100)
    have hq : (0:ℚ) ≤ (roundHalfEven (v * 100) : ℚ) := by exact_mod_cast le_trans hfl this
    positivity
  · have hcl : ⌈v * 100⌉ ≤ 10000 := by
      have : (v * 100 : ℚ) ≤ 10000 := by linarith
      calc ⌈v * 100⌉ ≤ ⌈(10000 : ℚ)⌉ := Int.ceil_le_ceil this
        _ = 10000 := by norm_num
    have := roundHalfEven_le_ceil (v * 100)
    have hint : roundHalfEven (v * 100) ≤ 10000 := le_trans this hcl
    have hq : (roundHalfEven (v * 100) : ℚ) ≤ 10000 := by exact_mod_cast hint
    linarith

/-! ### Per-set and per-rule aggregation agree -/

theorem aggregate_nil (x : ℚ) : aggregate [] x = 0 := by
  unfold aggregate activation setStrength
  simp [min_eq_right (mf_nonneg _ x)]

theorem aggregate_cons (v : ℚ) (t : OutTerm) (st : List (ℚ × OutTerm)) (x : ℚ) :
    aggregate ((v, t) :: st) x = max (min (t.mf x) v) (aggregate st x) := by
  cases t <;>
    · simp only [aggregate, activation, setStrength, reduceCtorEq, if_true, if_false,
        reduceIte]
      rw [min_max_distrib_left]
      simp only [max_assoc, max_left_comm, max_comm]

theorem aggregate_eq_aggregateRules (st : List (ℚ × OutTerm)) (x : ℚ) :
    aggregate st x = aggregateRules st x := by
  induction st with
  | nil => exact aggregate_nil x
  | cons p st ih =>
      rcases p with ⟨v, t⟩
      rw [aggregate_cons, ih]
      rfl

theorem clipped_le_aggregateRules {p : ℚ × OutTerm} {st : List (ℚ × OutTerm)}
    (hp : p ∈ st) (x : ℚ) : min (p.2.mf x) p.1 ≤ aggregateRules st x := by
  induction st with
  | nil => cases hp
  | cons q st ih =>
      rcases List.mem_cons.mp hp with rfl | hmem
      · exact le_max_left _ _
      · exact le_trans (ih hmem) (le_max_right _ _)

/-- C2: the four linguistic variables have exactly the universes cgpa =
[2.0, 4.0] at step 0.1, skill_match = [0, 100] at step 1, sector_match =
[0, 1] at step 0.1 and recommendation = [0, 100] at step 1, and exactly
the triangular breakpoints of the table in spec section 4.1, each
triangular function rising linearly from 0 at a to 1 at b and falling
linearly to 0 at c. -/
theorem C2_linguistic_variables :
    (cgpa_universe = (List.range 21).map (fun i : ℕ => 2 + (i : ℚ) / 10)
      ∧ skill_match_universe = (List.range 101).map (fun i : ℕ => (i : ℚ))
      ∧ sector_match_universe = (List.range 11).map (fun i : ℕ => (i : ℚ) / 10)
      ∧ recommendation_universe = (List.range 101).map (fun i : ℕ => (i : ℚ)))
    ∧ (cgpa_low = trimf 2 2 3.2 ∧ cgpa_medium = trimf 2.9 3.4 3.8
      ∧ cgpa_high = trimf 3.6 4 4
      ∧ skill_match_poor = trimf 0 0 60 ∧ skill_match_fair = trimf 45 70 90
      ∧ skill_match_excellent = trimf 80 100 100
      ∧ sector_match_no = trimf 0 0 0.6 ∧ sector_match_yes = trimf 0.4 1 1
      ∧ recommendation_weak = trimf 0 10 40
      ∧ recommendation_moderate = trimf 30 60 80
      ∧ recommendation_strong = trimf 70 100 100)
    ∧ (∀ a b c x : ℚ, x < a → trimf a b c x = 0)
    ∧ (∀ a b c x : ℚ, a < b → a ≤ x → x ≤ b → trimf a b c x = (x - a) / (b - a))
    ∧ (∀ a b c : ℚ, a ≤ b → trimf a b c b = 1)
    ∧ (∀ a b c x : ℚ, a ≤ b → b < c → b ≤ x → x ≤ c → trimf a b c x = (c - x) / (c - b))
    ∧ (∀ a b c x : ℚ, a ≤ b → b ≤ c → c < x → trimf a b c x = 0) := by
  refine ⟨⟨by decide, by decide, by decide, recommendation_universe_eq⟩,
    ⟨rfl, rfl, rfl, rfl, rfl, rfl, rfl, rfl, rfl, rfl, rfl⟩, ?_, ?_, ?_, ?_, ?_⟩
  · intro a b c x hxa
    unfold trimf
    rw [if_pos hxa]
  · intro a b c x hab hax hxb
    unfold trimf
    rw [if_neg (not_lt.mpr hax)]
    rcases lt_or_eq_of_le hxb with h | h
    · rw [if_pos h]
    · rw [h, if_neg (lt_irrefl b), if_pos rfl,
        div_self (ne_of_gt (show (0 : ℚ) < b - a by linarith))]
  · intro a b c hab
    unfold trimf
    rw [if_neg (not_lt.mpr hab), if_neg (lt_irrefl b), if_pos rfl]
  · intro a b c x hab hbc hbx hxc
    unfold trimf
    rw [if_neg (not_lt.mpr (le_trans hab hbx))]
    rcases lt_or_eq_of_le hbx with h | h
    · rw [if_neg (not_lt.mpr (le_of_lt h)), if_neg (ne_of_gt h)]
      rcases lt_or_eq_of_le hxc with h2 | h2
      · rw [if_pos h2]
      · rw [h2, if_neg (lt_irrefl c), sub_self, zero_div]
    · rw [← h, if_neg (lt_irrefl b), if_pos rfl,
        div_self (ne_of_gt (show (0 : ℚ) < c - b by linarith))]
  · intro a b c x hab hbc hcx
    unfold trimf
    have hbx : b < x := lt_of_le_of_lt hbc hcx
    rw [if_neg (not_lt.mpr (le_of_lt (lt_of_le_of_lt hab hbx))),
      if_neg (not_lt.mpr (le_of_lt hbx)), if_neg (ne_of_gt hbx),
      if_neg (not_lt.mpr (le_of_lt hcx))]

/-- C2 witness: the shape facts instantiated on concrete breakpoints —
the recommendation weak set rises to 1/2 at 5, peaks where a = b at 2,
falls to 1/2 at 25, and vanishes outside its support. -/
theorem C2_linguistic_variables_witness :
    trimf 0 10 40 (5 : ℚ) = (5 - 0) / (10 - 0)
    ∧ trimf 2 2 3.2 (2 : ℚ) = 1
    ∧ trimf 0 10 40 (25 : ℚ) = (40 - 25) / (40 - 10)
    ∧ trimf 0 10 40 (50 : ℚ) = 0
    ∧ trimf 30 60 80 (10 : ℚ) = 0 :=
  ⟨C2_linguistic_variables.2.2.2.1 0 10 40 5 (by norm_num) (by norm_num) (by norm_num),
   C2_linguistic_variables.2.2.2.2.1 2 2 3.2 (le_refl 2),
   C2_linguistic_variables.2.2.2.2.2.1 0 10 40 25 (by norm_num) (by norm_num)
     (by norm_num) (by norm_num),
   C2_linguistic_variables.2.2.2.2.2.2 0 10 40 50 (by norm_num) (by norm_num)
     (by norm_num),
   C2_linguistic_variables.2.2.1 30 60 80 10 (by norm_num)⟩

/-- C3: the rule base is exactly the nine rules of spec section 4.2, each
rule is evaluated independently on every call and jointly firing rules
have their clipped outputs combined by pointwise maximum in the aggregate
curve (never first-wins): every rule's clipped consequent curve is a
lower bound of the aggregate, the rule strengths are as listed, and at
input (3.9, 95, 1.0) rules 1 and 9 fire jointly with positive strength. -/
theorem C3_rule_base :
    (∀ r ∈ rules, ∀ i x,
      min (OutTerm.mf r.consequent x) (firingStrength r i) ≤ aggregate (ruleStrengths i) x)
    ∧ rules = [rule1, rule2, rule3, rule4, rule5, rule6, rule7, rule8, rule9]
    ∧ (∀ i, firingStrength rule1 i
        = min (min (cgpa_high i.cgpa) (skill_match_excellent i.skill_match)) (sector_match_yes i.sector_match))
    ∧ rule1.consequent = OutTerm.strong
    ∧ (∀ i, firingStrength rule2 i
        = min (min (cgpa_medium i.cgpa) (skill_match_excellent i.skill_match)) (sector_match_yes i.sector_match))
    ∧ rule2.consequent = OutTerm.strong
    ∧ (∀ i, firingStrength rule3 i
        = min (min (cgpa_low i.cgpa) (skill_match_excellent i.skill_match)) (sector_match_yes i.sector_match))
    ∧ rule3.consequent = OutTerm.moderate
    ∧ (∀ i, firingStrength rule4 i
        = min (min (cgpa_high i.cgpa) (skill_match_fair i.skill_match)) (sector_match_yes i.sector_match))
    ∧ rule4.consequent = OutTerm.moderate
    ∧ (∀ i, firingStrength rule5 i
        = min (min (cgpa_high i.cgpa) (skill_match_excellent i.skill_match)) (sector_match_no i.sector_match))
    ∧ rule5.consequent = OutTerm.moderate
    ∧ (∀ i, firingStrength rule6 i
        = max (cgpa_low i.cgpa) (skill_match_poor i.skill_match))
    ∧ rule6.consequent = OutTerm.weak
    ∧ (∀ i, firingStrength rule7 i
        = min (sector_match_no i.sector_match) (skill_match_fair i.skill_match))
    ∧ rule7.consequent = OutTerm.weak
    ∧ (∀ i, firingStrength rule8 i
        = min (min (cgpa_medium i.cgpa) (skill_match_fair i.skill_match)) (sector_match_no i.sector_match))
    ∧ rule8.consequent = OutTerm.weak
    ∧ (∀ i, firingStrength rule9 i
        = min (cgpa_high i.cgpa) (sector_match_yes i.sector_match))
    ∧ rule9.consequent = OutTerm.moderate
    ∧ 0 < firingStrength rule1 (clampedInputs 3.9 95 1)
    ∧ 0 < firingStrength rule9 (clampedInputs 3.9 95 1) := by
  refine ⟨?_, rfl, fun i => rfl, rfl, fun i => rfl, rfl, fun i => rfl, rfl,
    fun i => rfl, rfl, fun i => rfl, rfl, fun i => rfl, rfl, fun i => rfl, rfl,
    fun i => rfl, rfl, fun i => rfl, rfl, by decide, by decide⟩
  intro r hr i x
  rw [aggregate_eq_aggregateRules]
  exact clipped_le_aggregateRules (List.mem_map_of_mem _ hr) x

/-- C3 witness: rule 6 clipped at its firing strength bounds the
aggregate curve from below, instantiated at the boundary input. -/
theorem C3_rule_base_witness :
    min (OutTerm.mf rule6.consequent 20) (firingStrength rule6 (clampedInputs 2 0 0))
      ≤ aggregate (ruleStrengths (clampedInputs 2 0 0)) 20 :=
  C3_rule_base.1 rule6 (by simp [rules]) (clampedInputs 2 0 0) 20

/-- C6 amended: the module-level session is reused across calls, but each
call overwrites everything it reads, so the returned score does not
depend on the inherited session state, agrees with the pure facade, and
two consecutive calls with identical inputs return identical scores. -/
theorem C6_session_determinism (sess sess' : Session) (c s m : ℚ) :
    (get_fuzzy_score_call sess c s m).1 = (get_fuzzy_score_call sess' c s m).1
    ∧ (get_fuzzy_score_call sess c s m).1 = get_fuzzy_score c s m
    ∧ (get_fuzzy_score_call (get_fuzzy_score_call sess c s m).2 c s m).1
        = (get_fuzzy_score_call sess c s m).1 :=
  ⟨rfl, rfl, rfl⟩

/-- C6 counterexample: the inference session is NOT created fresh for
every scoring call and discarded after returning — after one call the
module-level session still holds that call's inputs, and it (not a fresh
session) is what the next call receives. -/
theorem C6_counterexample :
    (get_fuzzy_score_call freshSession 3.9 95 1).2 ≠ freshSession
    ∧ (get_fuzzy_score_call freshSession 3.9 95 1).2.inputs
        = some (clampedInputs 3.9 95 1) := by
  refine ⟨fun h => ?_, rfl⟩
  have h2 := congrArg Session.inputs h
  simp [get_fuzzy_score_call, freshSession] at h2

/-- C7: a CGPA above the top of its universe behaves exactly as if
clamped to 4.0: the score for any c > 4 equals the score at 4. -/
theorem C7_clamped_above (c s m : ℚ) (hc : 4 < c) :
    get_fuzzy_score c s m = get_fuzzy_score 4 s m := by
  have h : clamp 2 4 c = clamp 2 4 4 := by
    unfold clamp
    rw [min_eq_left (le_of_lt hc), min_self]
  unfold get_fuzzy_score infer clampedInputs
  rw [h]

/-- C7 witness: a CGPA of 4.5 scores exactly as a CGPA of 4.0. -/
theorem C7_clamped_above_witness :
    (4 : ℚ) < 4.5 ∧ get_fuzzy_score 4.5 95 1 = get_fuzzy_score 4 95 1 :=
  ⟨by norm_num, C7_clamped_above 4.5 95 1 (by norm_num)⟩

/-- C10: the baseline score is the independent sum of the three weight
contributions (CGPA credited iff student CGPA meets the requirement,
sector iff the sectors are equal, skills iff the student skill sum
strictly exceeds the required sum); it always lands in
{0, 0.3, 0.4, 0.6, 0.7, 1}, hence in [0, 1], and the final min-with-1
clamp and 2-decimal rounding never change the value. -/
theorem C10_baseline_score (a b : ℚ) (p q : String) (u w : ℚ) :
    calculate_baseline_score a b p q u w
      = (if a ≥ b then (0.3 : ℚ) else 0) + (if p = q then (0.3 : ℚ) else 0)
        + (if u > w then (0.4 : ℚ) else 0)
    ∧ (calculate_baseline_score a b p q u w = 0
        ∨ calculate_baseline_score a b p q u w = 0.3
        ∨ calculate_baseline_score a b p q u w = 0.4
        ∨ calculate_baseline_score a b p q u w = 0.6
        ∨ calculate_baseline_score a b p q u w = 0.7
        ∨ calculate_baseline_score a b p q u w = 1)
    ∧ 0 ≤ calculate_baseline_score a b p q u w
    ∧ calculate_baseline_score a b p q u w ≤ 1 := by
  simp only [calculate_baseline_score]
  split_ifs <;> decide

/-- C1: the inference engine follows the Mamdani procedure — AND is min
and OR is max in firing strengths, each output set's activated curve is
its own curve clipped by the maximum strength of the rules naming it,
activated curves combine by pointwise maximum (equivalently, pointwise
max of the rule-by-rule clipped curves), a defuzzified value is the
centroid sum of x times membership over the sum of membership across the
sampled output universe, and the final score is that value rounded to 2
decimal places. -/
theorem C1_mamdani_inference :
    (∀ p q i, AExpr.eval (AExpr.and p q) i = min (AExpr.eval p i) (AExpr.eval q i))
    ∧ (∀ p q i, AExpr.eval (AExpr.or p q) i = max (AExpr.eval p i) (AExpr.eval q i))
    ∧ (∀ t st x, activation t st x = min (OutTerm.mf t x) (setStrength t st))
    ∧ (∀ st x, aggregate st x
        = max (activation OutTerm.weak st x)
            (max (activation OutTerm.moderate st x) (activation OutTerm.strong st x)))
    ∧ (∀ st x, aggregate st x = aggregateRules st x)
    ∧ (∀ c s m v, infer c s m = some v →
        v = ((recommendation_universe.map
              (fun x => x * aggregate (ruleStrengths (clampedInputs c s m)) x)).sum)
            / ((recommendation_universe.map
              (aggregate (ruleStrengths (clampedInputs c s m)))).sum)
          ∧ get_fuzzy_score c s m = round2 v) := by
  refine ⟨fun p q i => rfl, fun p q i => rfl, fun t st x => rfl, fun st x => rfl,
    aggregate_eq_aggregateRules, ?_⟩
  intro c s m v h
  refine ⟨(centroid_eq_some h).2, ?_⟩
  unfold get_fuzzy_score
  rw [h]

/-- C1 witness: at input (3.9, 95, 1.0) the engine defuzzifies to
10905/158 and the facade returns it rounded to 69.02. -/
theorem C1_mamdani_inference_witness :
    infer 3.9 95 1 = some (10905 / 158)
    ∧ (10905 / 158 : ℚ)
        = ((recommendation_universe.map
            (fun x => x * aggregate (ruleStrengths (clampedInputs 3.9 95 1)) x)).sum)
          / ((recommendation_universe.map
            (aggregate (ruleStrengths (clampedInputs 3.9 95 1)))).sum)
    ∧ get_fuzzy_score 3.9 95 1 = round2 (10905 / 158) := by
  have h : infer 3.9 95 1 = some (10905 / 158) := by decide
  have h2 := C1_mamdani_inference.2.2.2.2.2 3.9 95 1 (10905 / 158) h
  exact ⟨h, h2.1, h2.2⟩

/-- C4: the facade is total — the engine signals the non-defuzzifiable
case exactly when the aggregate curve is all-zero on the output universe,
the facade then returns the fixed fallback 5.0, and any defuzzified value
is returned rounded. -/
theorem C4_total_with_fallback (c s m : ℚ) :
    (infer c s m = none
      ↔ ∀ x ∈ recommendation_universe,
          aggregate (ruleStrengths (clampedInputs c s m)) x = 0)
    ∧ (infer c s m = none → get_fuzzy_score c s m = 5)
    ∧ (∀ v, infer c s m = some v → get_fuzzy_score c s m = round2 v) := by
  refine ⟨?_, ?_, ?_⟩
  · have hnn : ∀ y ∈ recommendation_universe.map
        (aggregate (ruleStrengths (clampedInputs c s m))), 0 ≤ y := by
      intro y hy
      rcases List.mem_map.mp hy with ⟨x, hx, rfl⟩
      exact aggregate_nonneg _ _
    refine Iff.trans (centroid_eq_none_iff _ _) ?_
    refine Iff.trans (sum_eq_zero_iff_of_nonneg hnn) ?_
    constructor
    · intro hall x hx
      exact hall _ (List.mem_map_of_mem _ hx)
    · intro hall y hy
      rcases List.mem_map.mp hy with ⟨x, hx, rfl⟩
      exact hall x hx
  · intro h
    unfold get_fuzzy_score
    rw [h]
  · intro v h
    unfold get_fuzzy_score
    rw [h]

/-- C4 witness: at (3.4, 70, 1.0) no rule fires, the engine signals the
non-defuzzifiable case and the facade returns the fallback 5.0. -/
theorem C4_total_with_fallback_witness :
    infer 3.4 70 1 = none ∧ get_fuzzy_score 3.4 70 1 = 5 := by
  have h : infer 3.4 70 1 = none := by decide
  exact ⟨h, (C4_total_with_fallback 3.4 70 1).2.1 h⟩

/-- C5: for every valid input (cgpa in [2,4], skill in [0,100], sector in
{0,1}) the returned score lies in [0,100], and it is either the fallback
5.0 or the rounded centroid of the inferred output. -/
theorem C5_output_range (c s m : ℚ) (_hc1 : 2 ≤ c) (_hc2 : c ≤ 4)
    (_hs1 : 0 ≤ s) (_hs2 : s ≤ 100) (_hm : m = 0 ∨ m = 1) :
    (0 ≤ get_fuzzy_score c s m ∧ get_fuzzy_score c s m ≤ 100)
    ∧ (get_fuzzy_score c s m = 5
      ∨ ∃ v, infer c s m = some v ∧ get_fuzzy_score c s m = round2 v) := by
  cases h : infer c s m with
  | none =>
      have h5 : get_fuzzy_score c s m = 5 := by
        unfold get_fuzzy_score
        rw [h]
      refine ⟨⟨?_, ?_⟩, Or.inl h5⟩ <;> rw [h5] <;> norm_num
  | some v =>
      have hv : get_fuzzy_score c s m = round2 v := by
        unfold get_fuzzy_score
        rw [h]
      have h' : centroid recommendation_universe
          (aggregate (ruleStrengths (clampedInputs c s m))) = some v := h
      have hb := centroid_bounds (fun x _ => aggregate_nonneg _ x)
        (fun x hx => mem_recommendation_universe hx) h'
      have hr := round2_bounds hb.1 hb.2
      exact ⟨⟨hv ▸ hr.1, hv ▸ hr.2⟩, Or.inr ⟨v, rfl, hv⟩⟩

/-- C5 witness: the range guarantee instantiated at the valid input
(3.0, 50, 1.0). -/
theorem C5_output_range_witness :
    (0 ≤ get_fuzzy_score 3 50 1 ∧ get_fuzzy_score 3 50 1 ≤ 100)
    ∧ (get_fuzzy_score 3 50 1 = 5
      ∨ ∃ v, infer 3 50 1 = some v ∧ get_fuzzy_score 3 50 1 = round2 v) :=
  C5_output_range 3 50 1 (by norm_num) (by norm_num) (by norm_num) (by norm_num)
    (Or.inr rfl)

/-! ### Concrete scores, computed by kernel evaluation -/

theorem score_at_2_95_1 : get_fuzzy_score 2 95 1 = 1911 / 50 := by decide

theorem score_at_2p5_95_1 : get_fuzzy_score 2.5 95 1 = 978 / 25 := by decide

theorem score_at_2p9_95_1 : get_fuzzy_score 2.9 95 1 = 1973 / 50 := by decide

theorem score_at_3p1_95_1 : get_fuzzy_score 3.1 95 1 = 6843 / 100 := by decide

theorem score_at_3p7_95_1 : get_fuzzy_score 3.7 95 1 = 3353 / 50 := by decide

theorem score_at_3p8_95_1 : get_fuzzy_score 3.8 95 1 = 6823 / 100 := by decide

theorem score_at_3p9_95_1 : get_fuzzy_score 3.9 95 1 = 3451 / 50 := by decide

theorem score_at_4_95_1 : get_fuzzy_score 4 95 1 = 3431 / 50 := by decide

theorem score_at_2_0_0 : get_fuzzy_score 2 0 0 = 1667 / 100 := by decide

/-- C8 counterexample: at skill 95 and sector 1.0 (the excellent and yes
memberships are positive, keeping the other conjuncts of the
CGPA-referencing rules true), CGPA 3.1 lies in the low region (positive
low membership) and CGPA 3.7 in the high region (positive high
membership), yet the score at 3.1 (68.43) exceeds the score at 3.7
(67.06): increasing CGPA from the low region into high can decrease the
result. -/
theorem C8_counterexample :
    0 < cgpa_low 3.1 ∧ 0 < cgpa_high 3.7
    ∧ 0 < skill_match_excellent 95 ∧ 0 < sector_match_yes 1
    ∧ get_fuzzy_score 3.7 95 1 < get_fuzzy_score 3.1 95 1 := by
  refine ⟨by decide, by decide, by decide, by decide, ?_⟩
  rw [score_at_3p7_95_1, score_at_3p1_95_1]
  norm_num

/-- C8 amended: with skill_match = 95 and sector_match = 1.0 (keeping the
other conjuncts of the CGPA-referencing rules true), and the low region
restricted to CGPAs where low is the only cgpa set with positive
membership (at grid points 2.0, 2.5, 2.9), every such low-region score is
at most every high-region score (grid points 3.7, 3.8, 3.9, 4.0). -/
theorem C8_monotone_spot_checks :
    (0 < cgpa_low 2 ∧ cgpa_medium 2 = 0 ∧ cgpa_high 2 = 0)
    ∧ (0 < cgpa_low 2.5 ∧ cgpa_medium 2.5 = 0 ∧ cgpa_high 2.5 = 0)
    ∧ (0 < cgpa_low 2.9 ∧ cgpa_medium 2.9 = 0 ∧ cgpa_high 2.9 = 0)
    ∧ (0 < cgpa_high 3.7 ∧ cgpa_low 3.7 = 0)
    ∧ (0 < cgpa_high 3.8 ∧ cgpa_low 3.8 = 0)
    ∧ (0 < cgpa_high 3.9 ∧ cgpa_low 3.9 = 0)
    ∧ (0 < cgpa_high 4 ∧ cgpa_low 4 = 0)
    ∧ 0 < skill_match_excellent 95 ∧ 0 < sector_match_yes 1
    ∧ get_fuzzy_score 2 95 1 ≤ get_fuzzy_score 3.7 95 1
    ∧ get_fuzzy_score 2 95 1 ≤ get_fuzzy_score 3.8 95 1
    ∧ get_fuzzy_score 2 95 1 ≤ get_fuzzy_score 3.9 95 1
    ∧ get_fuzzy_score 2 95 1 ≤ get_fuzzy_score 4 95 1
    ∧ get_fuzzy_score 2.5 95 1 ≤ get_fuzzy_score 3.7 95 1
    ∧ get_fuzzy_score 2.5 95 1 ≤ get_fuzzy_score 3.8 95 1
    ∧ get_fuzzy_score 2.5 95 1 ≤ get_fuzzy_score 3.9 95 1
    ∧ get_fuzzy_score 2.5 95 1 ≤ get_fuzzy_score 4 95 1
    ∧ get_fuzzy_score 2.9 95 1 ≤ get_fuzzy_score 3.7 95 1
    ∧ get_fuzzy_score 2.9 95 1 ≤ get_fuzzy_score 3.8 95 1
    ∧ get_fuzzy_score 2.9 95 1 ≤ get_fuzzy_score 3.9 95 1
    ∧ get_fuzzy_score 2.9 95 1 ≤ get_fuzzy_score 4 95 1 := by
  refine ⟨by decide, by decide, by decide, by decide, by decide, by decide, by decide,
    by decide, by decide, ?_, ?_, ?_, ?_, ?_, ?_, ?_, ?_, ?_, ?_, ?_, ?_⟩ <;>
    simp only [score_at_2_95_1, score_at_2p5_95_1, score_at_2p9_95_1,
      score_at_3p7_95_1, score_at_3p8_95_1, score_at_3p9_95_1, score_at_4_95_1] <;>
    norm_num

/-- C9: at the boundary input (2.0, 0, 0.0) rule 6 fires at full strength
(low and poor memberships are both 1) and the resulting score 16.67 falls
in the weak region — positive weak membership, below the weak support end
40, zero strong membership and below the strong region start 70. -/
theorem C9_boundary_weak :
    firingStrength rule6 (clampedInputs 2 0 0) = 1
    ∧ cgpa_low 2 = 1 ∧ skill_match_poor 0 = 1
    ∧ get_fuzzy_score 2 0 0 = 1667 / 100
    ∧ get_fuzzy_score 2 0 0 < 40
    ∧ 0 < recommendation_weak (get_fuzzy_score 2 0 0)
    ∧ recommendation_strong (get_fuzzy_score 2 0 0) = 0
    ∧ get_fuzzy_score 2 0 0 < 70 := by
  refine ⟨by decide, by decide, by decide, score_at_2_0_0, ?_, ?_, ?_, ?_⟩ <;>
    rw [score_at_2_0_0]
  · norm_num
  · decide
  · decide
  · norm_num

end InternshipFuzzy
